import Mathlib

/-!
Verification of the `xgboost.js` gradient-boosting engine (src/src/xgboost.js).

Shallow embedding conventions:
- JS numbers are modelled as exact rationals (`ℚ`); the literals `1e-10` and
  `1e-6` become the exact rationals `1/10^10` and `1/10^6`.
- JS array reads `a[i]` that are always in range are modelled with `List.getD`;
  where the source can read out of range and the resulting `undefined` is
  observable (prediction traversal, the importance counters) the JS semantics
  of `undefined` is modelled explicitly (`Option`, the `JVal` type below).
- The recursion of `_buildTree` terminates because both child partitions are
  strictly smaller than the parent; we make the recursion structural with a
  fuel argument and always call it with fuel `X.length + 1`, which the size
  argument shows is never exhausted (the fuel-zero branch is unreachable from
  `fit`).
- The sigmoid `1/(1+Math.exp(-pred))` is transcendental; predictions depend on
  it only through the rational raw score, so `predictSingle`/`predictBatch`
  take the link function as an explicit parameter and every statement below
  holds for an arbitrary link.
-/

/-- The numeric floor `1e-10` used by the source for gains and leaf values. -/
def eps : ℚ := 1 / 10000000000

/-- Decision-tree vertex, modelling the JS `Node` class: the source tags nodes
with `isLeaf` and fills either `value` or
`featureIndex/threshold/left/right`. -/
inductive Node : Type where
  | leaf (value : ℚ)
  | internal (featureIndex : ℕ) (threshold : ℚ) (left right : Node)
deriving DecidableEq

/-- Models `node.isLeaf` of the source. -/
def Node.isLeafB : Node → Bool
  | .leaf _ => true
  | .internal _ _ _ _ => false

/-- Height of a tree: the depth (root = 0) of its deepest node.  A tree has a
node at depth `k` iff `k ≤ height`. -/
def Node.height : Node → ℕ
  | .leaf _ => 0
  | .internal _ _ l r => max l.height r.height + 1

/-- The candidate recorded by the split search (`bestSplit` in the source). -/
structure Split : Type where
  featureIndex : ℕ
  threshold : ℚ
  leftIndices : List ℕ
  rightIndices : List ℕ
deriving DecidableEq

/-- The hyperparameter record passed to the constructor; `none` models an
absent field of the JS `params` object. -/
structure Hyperparams : Type where
  learningRate : Option ℚ := none
  maxDepth : Option ℚ := none
  minChildWeight : Option ℚ := none
  numRounds : Option ℚ := none
deriving DecidableEq

/-- The model state: the four stored hyperparameters plus the tree list.  The
source stores trees as `{root: tree}` wrappers; we keep the roots. -/
structure XGBoost : Type where
  learningRate : ℚ
  maxDepth : ℚ
  minChildWeight : ℚ
  numRounds : ℚ
  trees : List Node
deriving DecidableEq

/-- JS `v || d`: the default replaces a missing field and also any falsy
supplied value; the only falsy rational is `0` (JS `NaN` is not a rational). -/
def jsOrDefault (v : Option ℚ) (d : ℚ) : ℚ :=
  match v with
  | none => d
  | some x => if x = 0 then d else x

/-- The `XGBoost` constructor. -/
def XGBoost.new (p : Hyperparams) : XGBoost :=
  { learningRate := jsOrDefault p.learningRate (3 / 10)
    maxDepth := jsOrDefault p.maxDepth 4
    minChildWeight := jsOrDefault p.minChildWeight 1
    numRounds := jsOrDefault p.numRounds 100
    trees := [] }

/-- Models `gradients.reduce((a, b) => a + b, 0)` of the source. -/
def gradSum (g : List ℚ) : ℚ := g.foldl (· + ·) 0

/-- Models `X[i][f]`, the sort key of sample `i` for feature `f` (always read
in range by the source). -/
def featKey (X : List (List ℚ)) (f : ℕ) (i : ℕ) : ℚ :=
  (X.getD i []).getD f 0

/-- Insert an index into an already sorted index list, after all entries with
key less than or equal to its own (the stable position). -/
def insertSorted (key : ℕ → ℚ) (i : ℕ) : List ℕ → List ℕ
  | [] => [i]
  | j :: js => if key j ≤ key i then j :: insertSorted key i js else i :: j :: js

/-- Stable ascending sort by key, modelling the JS stable
`sort((a, b) => X[a][f] - X[b][f])`. -/
def sortIndices (key : ℕ → ℚ) (l : List ℕ) : List ℕ :=
  l.foldl (fun acc i => insertSorted key i acc) []

/-- The mutable state of the inner split-scan loop of `_buildTree`. -/
structure ScanState : Type where
  leftSum : ℚ
  leftCount : ℕ
  rightSum : ℚ
  rightCount : ℕ
  bestGain : ℚ
  bestSplit : Option Split
deriving DecidableEq

/-- One iteration of the inner loop of the split search (loop index `i` over
adjacent positions of the sorted index list): accumulate the left/right
statistics, skip the boundary when the two adjacent key values are equal,
otherwise compute the gain and update the global best on strict improvement. -/
def scanStep (X : List (List ℚ)) (g : List ℚ) (f : ℕ) (sorted : List ℕ)
    (sumGrad : ℚ) (count : ℕ) (st : ScanState) (i : ℕ) : ScanState :=
  let idx := sorted.getD i 0
  let leftSum := st.leftSum + g.getD idx 0
  let leftCount := st.leftCount + 1
  let rightSum := st.rightSum - g.getD idx 0
  let rightCount := st.rightCount - 1
  if featKey X f idx = featKey X f (sorted.getD (i + 1) 0) then
    { st with leftSum := leftSum, leftCount := leftCount,
              rightSum := rightSum, rightCount := rightCount }
  else
    let gain := leftSum * leftSum / ((leftCount : ℚ) + eps)
      + rightSum * rightSum / ((rightCount : ℚ) + eps)
      - sumGrad * sumGrad / ((count : ℚ) + eps)
    if gain > st.bestGain then
      { leftSum := leftSum, leftCount := leftCount,
        rightSum := rightSum, rightCount := rightCount,
        bestGain := gain,
        bestSplit := some
          { featureIndex := f
            threshold := (featKey X f idx + featKey X f (sorted.getD (i + 1) 0)) / 2
            leftIndices := sorted.take (i + 1)
            rightIndices := sorted.drop (i + 1) } }
    else
      { st with leftSum := leftSum, leftCount := leftCount,
                rightSum := rightSum, rightCount := rightCount }

/-- The body of the `featureIdx` loop of `_buildTree`: sort the sample indices
by the feature value and scan every adjacent boundary, threading the global
`(bestGain, bestSplit)` pair through. -/
def findSplitForFeature (X : List (List ℚ)) (g : List ℚ) (sumGrad : ℚ)
    (count : ℕ) (best : ℚ × Option Split) (f : ℕ) : ℚ × Option Split :=
  let sorted := sortIndices (featKey X f) (List.range X.length)
  let final := (List.range (sorted.length - 1)).foldl
    (scanStep X g f sorted sumGrad count)
    { leftSum := 0, leftCount := 0, rightSum := sumGrad, rightCount := count,
      bestGain := best.1, bestSplit := best.2 }
  (final.bestGain, final.bestSplit)

/-- The whole split search of `_buildTree`: `bestGain` starts at `0`,
`bestSplit` at `null`, and every feature index below `X[0].length` is
scanned. -/
def findBestSplit (X : List (List ℚ)) (g : List ℚ) : ℚ × Option Split :=
  (List.range (X.headD []).length).foldl
    (findSplitForFeature X g (gradSum g) g.length) (0, none)

/-- Models `_buildTree(X, gradients, depth)` of the source, with structural
fuel (see
the header comment; `fit` always supplies fuel `X.length + 1` and the fuel-zero
branch is unreachable from it). -/
def _buildTree (m : XGBoost) : ℕ → List (List ℚ) → List ℚ → ℕ → Node
  | 0, _, _, _ => .leaf 0
  | fuel + 1, X, g, depth =>
    let sumGrad := gradSum g
    let count := g.length
    if (depth : ℚ) ≥ m.maxDepth ∨ (count : ℚ) < m.minChildWeight ∨ |sumGrad| < eps then
      .leaf (sumGrad / ((count : ℚ) + eps))
    else
      match findBestSplit X g with
      | (_, none) => .leaf (sumGrad / ((count : ℚ) + eps))
      | (bestGain, some s) =>
        if bestGain < eps then .leaf (sumGrad / ((count : ℚ) + eps))
        else
          .internal s.featureIndex s.threshold
            (_buildTree m fuel (s.leftIndices.map (fun i => X.getD i []))
              (s.leftIndices.map (fun i => g.getD i 0)) (depth + 1))
            (_buildTree m fuel (s.rightIndices.map (fun i => X.getD i []))
              (s.rightIndices.map (fun i => g.getD i 0)) (depth + 1))

/-- Models `_predict(x, node)` of the source.  A `featureIndex` beyond the arity of
`x` reads `undefined` in JS, and `undefined <= threshold` is `false`, so the
traversal goes right; this is modelled by the `none` branch. -/
def _predict (x : List ℚ) : Node → ℚ
  | .leaf v => v
  | .internal f t l r =>
    match x[f]? with
    | some xv => if xv ≤ t then _predict x l else _predict x r
    | none => _predict x r

/-- Models `predictions.map((pred, idx) => ...)` with the element index, as
in the prediction update of `fit`. -/
def updateAux (h : ℕ → ℚ → ℚ) : ℕ → List ℚ → List ℚ
  | _, [] => []
  | i, p :: ps => h i p :: updateAux h (i + 1) ps

/-- One boosting round of `fit`: compute the gradients `y[idx] -
predictions[idx]`, build one tree, update the predictions. -/
def fitRound (m : XGBoost) (X : List (List ℚ)) (y : List ℚ)
    (preds : List ℚ) : Node × List ℚ :=
  let gradients := List.zipWith (fun actual pred => actual - pred) y preds
  let tree := _buildTree m (X.length + 1) X gradients 0
  let preds2 := updateAux
    (fun idx pred => pred + m.learningRate * _predict (X.getD idx []) tree) 0 preds
  (tree, preds2)

/-- The round loop of `fit`, returning the trees pushed in round order together
with the final predictions vector. -/
def fitLoop (m : XGBoost) (X : List (List ℚ)) (y : List ℚ) :
    ℕ → List ℚ → List Node × List ℚ
  | 0, preds => ([], preds)
  | r + 1, preds =>
    ((fitRound m X y preds).1 :: (fitLoop m X y r (fitRound m X y preds).2).1,
      (fitLoop m X y r (fitRound m X y preds).2).2)

/-- Number of iterations of `for (let i = 0; i < numRounds; i++)` for a JS
number `numRounds`: the ceiling, clamped at zero. -/
def jsLoopCount (q : ℚ) : ℕ := (Int.ceil q).toNat

/-- Models `fit(X, y)` of the source: the predictions vector is initialised to
the base score `0.5`, and the freshly built trees are pushed onto the existing
tree list.  The source performs no validation of `X` or `y`.  This model is a
total function and is faithful wherever the source completes — in particular
for every call with `X.length = y.length` and consistent arity; when `X` is
shorter than `y`, the source instead crashes mid-round with a TypeError from
an undefined array access (at `X[0].length`, or at `_predict(X[idx], tree)` in
the prediction update), a crash this value-level model does not reproduce. -/
def fit (m : XGBoost) (X : List (List ℚ)) (y : List ℚ) : XGBoost :=
  { m with trees :=
      m.trees ++ (fitLoop m X y (jsLoopCount m.numRounds)
        (List.replicate y.length (1 / 2))).1 }

/-- The raw additive score of `predictSingle` before the link function:
`0.5 + Σ learningRate * _predict(x, tree)` over the trees in order. -/
def rawScore (m : XGBoost) (x : List ℚ) : ℚ :=
  m.trees.foldl (fun pred t => pred + m.learningRate * _predict x t) (1 / 2)

/-- Models `predictSingle(x)`: the link function (the sigmoid in the source) applied
to the raw score; the link is a parameter (see the header comment). -/
def predictSingle (link : ℚ → ℚ) (m : XGBoost) (x : List ℚ) : ℚ :=
  link (rawScore m x)

/-- Models `predictBatch(X)`: `predictSingle` mapped over the rows. -/
def predictBatch (link : ℚ → ℚ) (m : XGBoost) (X : List (List ℚ)) : List ℚ :=
  X.map (predictSingle link m)

/-- A JS array cell as observed by the importance counters: a number, a hole /
missing entry (read as `undefined`), or `NaN`. -/
inductive JVal : Type where
  | num (q : ℚ)
  | undef
  | nan
deriving DecidableEq

/-- Models `cell++` in JS: a number is incremented; `undefined` (a hole or a read
past the end) becomes `NaN`; `NaN` stays `NaN`. -/
def incrVal : JVal → JVal
  | .num q => .num (q + 1)
  | .undef => .nan
  | .nan => .nan

/-- Models `arr[i]++` on a JS array: in range, the cell is updated; past the end, the
array is extended with holes up to `i` and cell `i` becomes `NaN`. -/
def jsIndexIncr (arr : List JVal) (i : ℕ) : List JVal :=
  if i < arr.length then arr.set i (incrVal (arr.getD i .undef))
  else arr ++ List.replicate (i - arr.length) .undef ++ [.nan]

/-- Models `_getNumFeatures(node)` of the source: `0` on a leaf, otherwise the
maximum of `featureIndex + 1` and the two recursive values. -/
def _getNumFeatures : Node → ℕ
  | .leaf _ => 0
  | .internal f _ l r => max (f + 1) (max (_getNumFeatures l) (_getNumFeatures r))

/-- Models `_traverseTreeForImportance(node, importance)` of the source: it increments the
counter of each internal node feature, left subtree first. -/
def _traverseTreeForImportance : Node → List JVal → List JVal
  | .leaf _, imp => imp
  | .internal f _ l r, imp =>
    _traverseTreeForImportance r (_traverseTreeForImportance l (jsIndexIncr imp f))

/-- Models `getFeatureImportance()` of the source: empty for an empty ensemble;
otherwise the counter array is sized from the FIRST tree only
(`_getNumFeatures(this.trees[0].root)`) and then every tree is traversed. -/
def getFeatureImportance (m : XGBoost) : List JVal :=
  match m.trees with
  | [] => []
  | t0 :: _ =>
    m.trees.foldl (fun imp t => _traverseTreeForImportance t imp)
      (List.replicate (_getNumFeatures t0) (JVal.num 0))

/-- Number of internal nodes of a tree splitting on feature `f`. -/
def countSplitsOn (f : ℕ) : Node → ℕ
  | .leaf _ => 0
  | .internal f2 _ l r =>
    (if f2 = f then 1 else 0) + countSplitsOn f l + countSplitsOn f r

/-- Computes `1 + max featureIndex` over every internal node of the ensemble
(`0` when there is none): `_getNumFeatures` folded over all trees. -/
def ensembleNumFeatures (m : XGBoost) : ℕ :=
  m.trees.foldl (fun acc t => max acc (_getNumFeatures t)) 0

/-- Total number of internal nodes of the ensemble splitting on feature `f`. -/
def ensembleSplitsOn (m : XGBoost) (f : ℕ) : ℕ :=
  (m.trees.map (countSplitsOn f)).sum

/-- The record produced by `toJSON()`: the live tree list plus the four
hyperparameters. -/
structure SerializedModel : Type where
  trees : List Node
  learningRate : ℚ
  maxDepth : ℚ
  minChildWeight : ℚ
  numRounds : ℚ
deriving DecidableEq

/-- Models `toJSON()` of the source. -/
def toJSON (m : XGBoost) : SerializedModel :=
  { trees := m.trees, learningRate := m.learningRate, maxDepth := m.maxDepth,
    minChildWeight := m.minChildWeight, numRounds := m.numRounds }

/-- Models `XGBoost.fromJSON(json)` of the source: run the constructor on the stored
params (so the `v || default` laundering applies again) and install the stored
trees. -/
def fromJSON (j : SerializedModel) : XGBoost :=
  { XGBoost.new
      { learningRate := some j.learningRate, maxDepth := some j.maxDepth,
        minChildWeight := some j.minChildWeight, numRounds := some j.numRounds } with
    trees := j.trees }

/-! ## General helper lemmas -/

/-- Invariant preservation along a left fold. -/
theorem foldl_inv {α β : Type} (P : β → Prop) (step : β → α → β) :
    ∀ (l : List α) (b : β), P b → (∀ b2 a, a ∈ l → P b2 → P (step b2 a)) →
      P (l.foldl step b) := by
  intro l
  induction l with
  | nil => intro b hb _; exact hb
  | cons x xs ih =>
    intro b hb hstep
    exact ih (step b x) (hstep b x (List.mem_cons_self x xs) hb)
      (fun b2 a ha => hstep b2 a (List.mem_cons_of_mem x ha))

theorem insertSorted_perm (key : ℕ → ℚ) (i : ℕ) :
    ∀ l : List ℕ, (insertSorted key i l).Perm (i :: l) := by
  intro l
  induction l with
  | nil => exact List.Perm.refl _
  | cons j js ih =>
    simp only [insertSorted]
    split
    · exact (List.Perm.cons j ih).trans (List.Perm.swap i j js)
    · exact List.Perm.refl _

theorem foldl_insertSorted_perm (key : ℕ → ℚ) :
    ∀ (l : List ℕ) (acc : List ℕ),
      (l.foldl (fun acc i => insertSorted key i acc) acc).Perm (acc ++ l) := by
  intro l
  induction l with
  | nil => intro acc; simp
  | cons x xs ih =>
    intro acc
    refine (ih (insertSorted key x acc)).trans ?_
    refine (((insertSorted_perm key x acc).append_right xs).trans ?_)
    exact List.perm_middle.symm

theorem sortIndices_perm (key : ℕ → ℚ) (l : List ℕ) :
    (sortIndices key l).Perm l := by
  have h := foldl_insertSorted_perm key l []
  simpa [sortIndices] using h

theorem sortIndices_length (key : ℕ → ℚ) (l : List ℕ) :
    (sortIndices key l).length = l.length :=
  (sortIndices_perm key l).length_eq

/-! ## Split validity machinery (claim C7) -/

/-- The property every recorded candidate split enjoys: both partitions are
non-empty and together they are a permutation of the parent sample indices. -/
def SplitOK (n : ℕ) (s : Split) : Prop :=
  s.leftIndices ≠ [] ∧ s.rightIndices ≠ [] ∧
    (s.leftIndices ++ s.rightIndices).Perm (List.range n)

theorem scanStep_ok (X : List (List ℚ)) (g : List ℚ) (f : ℕ) (sorted : List ℕ)
    (sumGrad : ℚ) (count : ℕ) (n : ℕ) (hs : sorted.Perm (List.range n))
    (st : ScanState) (i : ℕ) (hi : i < sorted.length - 1)
    (h : ∀ s, st.bestSplit = some s → SplitOK n s) :
    ∀ s, (scanStep X g f sorted sumGrad count st i).bestSplit = some s → SplitOK n s := by
  intro s hsome
  simp only [scanStep] at hsome
  split at hsome
  · exact h s hsome
  · split at hsome
    · simp only [Option.some.injEq] at hsome
      subst hsome
      have hlen : i + 1 < sorted.length := by omega
      refine ⟨?_, ?_, ?_⟩
      · show List.take (i + 1) sorted ≠ []
        have hl : (List.take (i + 1) sorted).length = i + 1 := by
          rw [List.length_take]; omega
        intro hnil
        rw [hnil] at hl
        simp at hl
      · show List.drop (i + 1) sorted ≠ []
        have hl : (List.drop (i + 1) sorted).length = sorted.length - (i + 1) :=
          List.length_drop _ _
        intro hnil
        rw [hnil] at hl
        simp at hl
        omega
      · show (List.take (i + 1) sorted ++ List.drop (i + 1) sorted).Perm (List.range n)
        simpa [List.take_append_drop] using hs
    · exact h s hsome

theorem findSplitForFeature_ok (X : List (List ℚ)) (g : List ℚ) (sumGrad : ℚ)
    (count : ℕ) (best : ℚ × Option Split) (f : ℕ)
    (h : ∀ s, best.2 = some s → SplitOK X.length s) :
    ∀ s, (findSplitForFeature X g sumGrad count best f).2 = some s →
      SplitOK X.length s := by
  intro s hsome
  simp only [findSplitForFeature] at hsome
  have hperm : (sortIndices (featKey X f) (List.range X.length)).Perm
      (List.range X.length) := sortIndices_perm _ _
  have hinv := foldl_inv (fun st : ScanState => ∀ s, st.bestSplit = some s →
      SplitOK X.length s)
    (scanStep X g f (sortIndices (featKey X f) (List.range X.length)) sumGrad count)
    (List.range ((sortIndices (featKey X f) (List.range X.length)).length - 1))
    { leftSum := 0, leftCount := 0, rightSum := sumGrad, rightCount := count,
      bestGain := best.1, bestSplit := best.2 }
    h
    (fun st i hi hst => scanStep_ok X g f _ sumGrad count X.length hperm st i
      (List.mem_range.mp hi) hst)
  exact hinv s hsome

theorem findBestSplit_ok (X : List (List ℚ)) (g : List ℚ) :
    ∀ bg s, findBestSplit X g = (bg, some s) → SplitOK X.length s := by
  intro bg s heq
  have hinv := foldl_inv
    (fun best : ℚ × Option Split => ∀ s, best.2 = some s → SplitOK X.length s)
    (findSplitForFeature X g (gradSum g) g.length)
    (List.range (X.headD []).length)
    (0, none)
    (by intro s h; simp at h)
    (fun best f _ hb => findSplitForFeature_ok X g (gradSum g) g.length best f hb)
  rw [findBestSplit] at heq
  rw [heq] at hinv
  exact hinv s rfl

/-- Claim C7: every call to the tree builder that produces an Internal node
does so from a recorded best split whose two partitions are non-empty and
together enumerate the sample indices of the parent partition exactly once each
(they are a permutation of `0, ..., X.length - 1`, the index set the builder
partitions). -/
theorem split_validity (m : XGBoost) (fuel : ℕ) (X : List (List ℚ)) (g : List ℚ)
    (d f : ℕ) (t : ℚ) (l r : Node)
    (h : _buildTree m (fuel + 1) X g d = .internal f t l r) :
    ∃ bg s, findBestSplit X g = (bg, some s) ∧ s.featureIndex = f ∧
      s.leftIndices ≠ [] ∧ s.rightIndices ≠ [] ∧
      (s.leftIndices ++ s.rightIndices).Perm (List.range X.length) := by
  simp only [_buildTree] at h
  split at h
  · exact absurd h (by simp)
  · split at h
    next heq => exact absurd h (by simp)
    next bg s heq =>
      split at h
      · exact absurd h (by simp)
      · simp only [Node.internal.injEq] at h
        obtain ⟨hf, -, -, -⟩ := h
        have hok := findBestSplit_ok X g bg s heq
        exact ⟨bg, s, heq, hf, hok.1, hok.2.1, hok.2.2⟩

/-! ## Constructor behaviour (claims C4, C3) -/

theorem jsOrDefault_ne_zero (v : Option ℚ) (d : ℚ) (hd : d ≠ 0) :
    jsOrDefault v d ≠ 0 := by
  cases v with
  | none => simpa [jsOrDefault] using hd
  | some x =>
    simp only [jsOrDefault]
    split
    · exact hd
    · next h => exact h

/-- Claim C4, counterexample: the claim says an explicitly supplied
`learningRate = 0` is stored unchanged, but the `v || default` of the constructor
replaces the falsy `0` by the default `0.3`. -/
theorem constructor_zero_replaced :
    (XGBoost.new { learningRate := some 0 }).learningRate = 3 / 10 ∧
    (XGBoost.new { learningRate := some 0 }).learningRate ≠ 0 := by decide!

/-- Claim C4 (amended): a supplied hyperparameter value is stored unchanged
exactly when it is non-zero (so out-of-range values such as negative
`numRounds` or negative `learningRate` do pass through unvalidated); a missing
field or a supplied `0` (falsy in JS) falls back to the documented defaults
`learningRate=0.3, maxDepth=4, minChildWeight=1, numRounds=100`; the
constructed model has no trees. -/
theorem constructor_passthrough (p : Hyperparams) :
    (∀ v : ℚ, v ≠ 0 → p.learningRate = some v → (XGBoost.new p).learningRate = v) ∧
    ((p.learningRate = none ∨ p.learningRate = some 0) →
      (XGBoost.new p).learningRate = 3 / 10) ∧
    (∀ v : ℚ, v ≠ 0 → p.maxDepth = some v → (XGBoost.new p).maxDepth = v) ∧
    ((p.maxDepth = none ∨ p.maxDepth = some 0) → (XGBoost.new p).maxDepth = 4) ∧
    (∀ v : ℚ, v ≠ 0 → p.minChildWeight = some v →
      (XGBoost.new p).minChildWeight = v) ∧
    ((p.minChildWeight = none ∨ p.minChildWeight = some 0) →
      (XGBoost.new p).minChildWeight = 1) ∧
    (∀ v : ℚ, v ≠ 0 → p.numRounds = some v → (XGBoost.new p).numRounds = v) ∧
    ((p.numRounds = none ∨ p.numRounds = some 0) → (XGBoost.new p).numRounds = 100) ∧
    (XGBoost.new p).trees = [] := by
  refine ⟨?_, ?_, ?_, ?_, ?_, ?_, ?_, ?_, rfl⟩
  all_goals
    first
    | (intro v hv he; simp [XGBoost.new, he, jsOrDefault, hv])
    | (rintro (he | he) <;> simp [XGBoost.new, he, jsOrDefault])

/-- Out-of-range parameter record used to instantiate `constructor_passthrough`. -/
def oddParams : Hyperparams :=
  { learningRate := some (-2), maxDepth := some 0,
    minChildWeight := none, numRounds := some (-5) }

theorem constructor_passthrough_witness :
    (XGBoost.new oddParams).learningRate = -2 ∧
    (XGBoost.new oddParams).maxDepth = 4 ∧
    (XGBoost.new oddParams).minChildWeight = 1 ∧
    (XGBoost.new oddParams).numRounds = -5 := by
  have h := constructor_passthrough oddParams
  exact ⟨h.1 (-2) (by norm_num) rfl, h.2.2.2.1 (Or.inr rfl),
    h.2.2.2.2.2.1 (Or.inl rfl), h.2.2.2.2.2.2.1 (-5) (by norm_num) rfl⟩

/-! ## Out-of-range prediction (claim C5) -/

/-- A one-tree model whose single internal node refers to feature 5, beyond
the arity-2 inputs it is applied to. -/
def outOfRangeModel : XGBoost :=
  { learningRate := 1, maxDepth := 4, minChildWeight := 1, numRounds := 100,
    trees := [Node.internal 5 0 (Node.leaf 1) (Node.leaf 2)] }

/-- Claim C5, counterexample: a traversal meeting an internal node with
`featureIndex = 5` on an arity-2 input does not fail; the JS comparison
`undefined <= threshold` is false, so the right child value `2` is returned
silently, and the raw score of the one-tree model is `0.5 + 1 * 2`. -/
theorem predict_out_of_range_silent :
    _predict [3, 4] (Node.internal 5 0 (Node.leaf 1) (Node.leaf 2)) = 2 ∧
    rawScore outOfRangeModel [3, 4] = 5 / 2 := by decide!

/-- Claim C5 (amended): when a traversal reaches an internal node whose
`featureIndex` is at or beyond the input arity, no error is raised; the read
yields `undefined`, the comparison with the threshold is false, and the
traversal silently continues into the RIGHT child. -/
theorem predict_out_of_range_right (x : List ℚ) (f : ℕ) (t : ℚ) (l r : Node)
    (hf : x.length ≤ f) : _predict x (.internal f t l r) = _predict x r := by
  simp [_predict, List.getElem?_eq_none hf]

theorem predict_out_of_range_right_witness :
    _predict [3, 4] (Node.internal 5 0 (Node.leaf 1) (Node.leaf 2))
      = _predict [3, 4] (Node.leaf 2) :=
  predict_out_of_range_right [3, 4] 5 0 (Node.leaf 1) (Node.leaf 2) (by norm_num)

/-! ## fit performs no input validation (claim C1) -/

/-- Claim C1, counterexample: `fit` on the empty dataset (sample count zero)
does not fail before building a tree — it runs its round and pushes a tree
(the zero leaf), directly contradicting "fit fails with InvalidInput before
any tree is built".  The source contains no validation and defines no
`InvalidInput` error anywhere. -/
theorem fit_zero_samples_builds_tree :
    (fit (XGBoost.new { numRounds := some 1 }) [] []).trees = [Node.leaf 0] := by
  decide!

theorem buildTree_empty (m : XGBoost) (fuel : ℕ) :
    _buildTree m (fuel + 1) [] [] 0 = Node.leaf 0 := by
  have hzero : |gradSum ([] : List ℚ)| < eps := by norm_num [gradSum, eps]
  simp only [_buildTree]
  rw [if_pos (Or.inr (Or.inr hzero))]
  norm_num [gradSum]

theorem fitLoop_empty (m : XGBoost) :
    ∀ r : ℕ, fitLoop m [] [] r [] = (List.replicate r (Node.leaf 0), []) := by
  intro r
  induction r with
  | zero => rfl
  | succ n ih =>
    have hround : fitRound m [] [] [] = (Node.leaf 0, []) := by
      simp [fitRound, updateAux, buildTree_empty m 0]
    simp [fitLoop, hround, ih, List.replicate_succ]

/-- Claim C1 (amended): `fit` performs no input validation and never raises
the claimed `InvalidInput` (no such error exists in the source).  On the
zero-sample dataset (`X = []`, `y = []`) it does not fail at all: it runs all
`numRounds` rounds and pushes one tree per round, each the single leaf `0`
(the gradient list is empty, so `sumGrad = 0` triggers the
`|sumGrad| < 1e-10` stopping rule and the leaf value is `0/(0+1e-10)`).
Mismatched `X.length != y.length` inputs still get no `InvalidInput` and no
pre-training check, but the source can then crash mid-round with a TypeError
from an undefined array access — a failure outside this total model — so this
amendment asserts completion only for the zero-sample case proved here. -/
theorem fit_no_validation (p : Hyperparams) :
    (fit (XGBoost.new p) [] []).trees
      = List.replicate (jsLoopCount (XGBoost.new p).numRounds) (Node.leaf 0) := by
  have h0 : (XGBoost.new p).trees = [] := rfl
  simp [fit, fitLoop_empty, h0]

/-! ## Serialization round trip (claim C6) -/

theorem fromJSON_toJSON (m : XGBoost) (h1 : m.learningRate ≠ 0)
    (h2 : m.maxDepth ≠ 0) (h3 : m.minChildWeight ≠ 0) (h4 : m.numRounds ≠ 0) :
    fromJSON (toJSON m) = m := by
  cases m with
  | mk lr md mcw nr ts =>
    simp only [] at h1 h2 h3 h4
    simp [fromJSON, toJSON, XGBoost.new, jsOrDefault, h1, h2, h3, h4]

/-- Claim C6: for every trained ensemble (a constructed model after `fit`) and
every input batch, `predictBatch` after a `toJSON`/`fromJSON` round trip is
EQUAL to the original (the record stores the live trees and the constructor
re-applied to the stored, never-falsy hyperparameters is the identity), hence
in particular every element differs by less than `1e-6` in absolute value —
and this holds for an arbitrary link function in place of the sigmoid. -/
theorem serialization_roundtrip (p : Hyperparams) (X B : List (List ℚ))
    (y : List ℚ) (link : ℚ → ℚ) :
    predictBatch link (fromJSON (toJSON (fit (XGBoost.new p) X y))) B
      = predictBatch link (fit (XGBoost.new p) X y) B ∧
    List.Forall₂ (fun a b => |a - b| < 1 / 1000000)
      (predictBatch link (fromJSON (toJSON (fit (XGBoost.new p) X y))) B)
      (predictBatch link (fit (XGBoost.new p) X y) B) := by
  have hm : fromJSON (toJSON (fit (XGBoost.new p) X y)) = fit (XGBoost.new p) X y :=
    fromJSON_toJSON _ (jsOrDefault_ne_zero _ _ (by norm_num))
      (jsOrDefault_ne_zero _ _ (by norm_num))
      (jsOrDefault_ne_zero _ _ (by norm_num))
      (jsOrDefault_ne_zero _ _ (by norm_num))
  rw [hm]
  refine ⟨rfl, List.forall₂_same.mpr ?_⟩
  intro a ha
  norm_num

/-! ## Re-fitting an already trained model (claim C10) -/

theorem _buildTree_trees_irrelevant (m : XGBoost) (ts : List Node) :
    ∀ (fuel : ℕ) (X : List (List ℚ)) (g : List ℚ) (d : ℕ),
      _buildTree { m with trees := ts } fuel X g d = _buildTree m fuel X g d := by
  intro fuel
  induction fuel with
  | zero => intro X g d; rfl
  | succ n ih =>
    intro X g d
    have hmd : ({ m with trees := ts } : XGBoost).maxDepth = m.maxDepth := rfl
    have hcw : ({ m with trees := ts } : XGBoost).minChildWeight = m.minChildWeight := rfl
    simp only [_buildTree, hmd, hcw, ih]

theorem fitLoop_trees_irrelevant (m : XGBoost) (ts : List Node)
    (X : List (List ℚ)) (y : List ℚ) :
    ∀ (r : ℕ) (p : List ℚ),
      fitLoop { m with trees := ts } X y r p = fitLoop m X y r p := by
  intro r
  induction r with
  | zero => intro p; rfl
  | succ n ih =>
    intro p
    have hlr : ({ m with trees := ts } : XGBoost).learningRate = m.learningRate := rfl
    have hround : fitRound { m with trees := ts } X y p = fitRound m X y p := by
      simp only [fitRound, hlr, _buildTree_trees_irrelevant]
    simp only [fitLoop, hround, ih]

theorem fitLoop_length (m : XGBoost) (X : List (List ℚ)) (y : List ℚ) :
    ∀ (r : ℕ) (p : List ℚ), ((fitLoop m X y r p).1).length = r := by
  intro r
  induction r with
  | zero => intro p; rfl
  | succ n ih => intro p; simp [fitLoop, ih]

theorem foldl_contrib (c : ℚ) (x : List ℚ) :
    ∀ (ts : List Node) (a : ℚ),
      ts.foldl (fun pred t => pred + c * _predict x t) a
        = a + c * (ts.map (_predict x)).sum := by
  intro ts
  induction ts with
  | nil => intro a; simp
  | cons h tl ih => intro a; simp [ih]; ring

/-- Decomposition of `fit`: the updated tree list is the old one followed by
what a copy of the model with an empty tree list would have produced. -/
theorem fit_trees_decomp (mm : XGBoost) (X2 : List (List ℚ)) (y2 : List ℚ) :
    (fit mm X2 y2).trees = mm.trees ++ (fit { mm with trees := [] } X2 y2).trees := by
  show mm.trees
      ++ (fitLoop mm X2 y2 (jsLoopCount mm.numRounds)
          (List.replicate y2.length (1 / 2))).1
    = mm.trees
      ++ ([] ++ (fitLoop { mm with trees := [] } X2 y2 (jsLoopCount mm.numRounds)
          (List.replicate y2.length (1 / 2))).1)
  rw [List.nil_append, fitLoop_trees_irrelevant mm [] X2 y2]

/-- Claim C10: calling `fit` a second time raises no error (it is a total
function of the model) and does not reset the model: the second call appends
to the existing list exactly the trees a FRESH copy of the model (same
hyperparameters, empty tree list, predictions re-initialised to the constant
0.5) would build — i.e. the gradients of the second call ignore the contribution of
every previously fitted tree — the number of appended trees is `numRounds`,
and the raw score of `predictSingle` afterwards still sums the scaled
contributions of every tree from both calls on top of the 0.5 base. -/
theorem refit_appends_and_reinitializes (m : XGBoost) (X X2 : List (List ℚ))
    (y y2 : List ℚ) (x : List ℚ) :
    (fit (fit m X y) X2 y2).trees
      = (fit m X y).trees ++ (fit { m with trees := [] } X2 y2).trees ∧
    (fit { m with trees := [] } X2 y2).trees.length = jsLoopCount m.numRounds ∧
    rawScore (fit (fit m X y) X2 y2) x
      = 1 / 2 + m.learningRate
          * (((fit (fit m X y) X2 y2).trees.map (_predict x)).sum) := by
  refine ⟨fit_trees_decomp (fit m X y) X2 y2, ?_, ?_⟩
  · show (([] : List Node)
        ++ (fitLoop { m with trees := [] } X2 y2 (jsLoopCount m.numRounds)
            (List.replicate y2.length (1 / 2))).1).length = jsLoopCount m.numRounds
    rw [List.nil_append, fitLoop_length]
  · exact foldl_contrib m.learningRate x (fit (fit m X y) X2 y2).trees (1 / 2)

/-! ## maxDepth = 0 (claim C3) -/

/-- Claim C3, counterexample: constructing with `maxDepth = 0` does NOT give a
model of single-leaf trees: `0` is falsy, so the constructor stores the
default `maxDepth = 4`, and on data admitting a positive-gain split the fitted
tree is an Internal node. -/
theorem maxDepth_zero_not_leaf :
    ((fit (XGBoost.new { maxDepth := some 0, numRounds := some 1 })
        [[0], [1], [2]] [0, 1, 1]).trees.all Node.isLeafB) = false ∧
    (XGBoost.new { maxDepth := some 0 }).maxDepth = 4 := by decide!

theorem fitLoop_mem (m : XGBoost) (X : List (List ℚ)) (y : List ℚ) :
    ∀ (r : ℕ) (p : List ℚ) (t : Node), t ∈ (fitLoop m X y r p).1 →
      ∃ g, t = _buildTree m (X.length + 1) X g 0 := by
  intro r
  induction r with
  | zero => intro p t ht; simp [fitLoop] at ht
  | succ n ih =>
    intro p t ht
    simp only [fitLoop, List.mem_cons] at ht
    rcases ht with h | h
    · exact ⟨List.zipWith (fun actual pred => actual - pred) y p,
        by simpa [fitRound] using h⟩
    · exact ih _ t h

/-- Claim C3 (amended): a model with an effective `maxDepth` of `0` cannot be
produced by the constructor (the falsy `0` is replaced by the default `4`, see
the counterexample); for a model whose stored `maxDepth` field is `≤ 0`, the
claimed conclusion does hold: the depth-0 stopping rule fires immediately, so
every tree the builder returns is the single Leaf `sumGrad/(count + 1e-10)`
over the gradients of that call, and every tree `fit` appends is such a leaf. -/
theorem maxDepth_nonpos_single_leaf (m : XGBoost) (hm : m.maxDepth ≤ 0) :
    (∀ (fuel : ℕ) (X : List (List ℚ)) (g : List ℚ) (d : ℕ),
      _buildTree m (fuel + 1) X g d
        = Node.leaf (gradSum g / ((g.length : ℚ) + eps))) ∧
    (∀ (X : List (List ℚ)) (y : List ℚ) (t : Node),
      t ∈ (fit m X y).trees → t ∈ m.trees ∨ t.isLeafB = true) := by
  have hleaf : ∀ (fuel : ℕ) (X : List (List ℚ)) (g : List ℚ) (d : ℕ),
      _buildTree m (fuel + 1) X g d
        = Node.leaf (gradSum g / ((g.length : ℚ) + eps)) := by
    intro fuel X g d
    have hcond : (d : ℚ) ≥ m.maxDepth ∨ ((g.length : ℚ)) < m.minChildWeight ∨
        |gradSum g| < eps :=
      Or.inl (le_trans hm (by positivity))
    simp only [_buildTree]
    rw [if_pos hcond]
  refine ⟨hleaf, ?_⟩
  intro X y t ht
  have ht2 : t ∈ m.trees ++ (fitLoop m X y (jsLoopCount m.numRounds)
      (List.replicate y.length (1 / 2))).1 := ht
  rcases List.mem_append.mp ht2 with h | h
  · exact Or.inl h
  · obtain ⟨g, hg⟩ := fitLoop_mem m X y _ _ t h
    right
    rw [hg, hleaf X.length X g 0]
    rfl

/-- A model with the `maxDepth` field set to `0` directly (bypassing the
constructor, which cannot produce it). -/
def depthZeroModel : XGBoost :=
  { learningRate := 3 / 10, maxDepth := 0, minChildWeight := 1, numRounds := 1,
    trees := [] }

theorem maxDepth_nonpos_single_leaf_witness :
    _buildTree depthZeroModel 1 [[1], [2]] [1 / 2, 1 / 2] 0
      = Node.leaf (gradSum [1 / 2, 1 / 2]
          / ((([1 / 2, (1 : ℚ) / 2] : List ℚ).length : ℚ) + eps)) :=
  (maxDepth_nonpos_single_leaf depthZeroModel (by norm_num [depthZeroModel])).1
    0 [[1], [2]] [1 / 2, 1 / 2] 0

/-! ## Depth bound (claim C8) -/

theorem buildTree_height_le (m : XGBoost) (mD : ℕ) (hm : m.maxDepth = (mD : ℚ)) :
    ∀ (fuel : ℕ) (X : List (List ℚ)) (g : List ℚ) (d : ℕ),
      (_buildTree m fuel X g d).height ≤ mD - d := by
  intro fuel
  induction fuel with
  | zero =>
    intro X g d
    simp [_buildTree, Node.height]
  | succ n ih =>
    intro X g d
    simp only [_buildTree]
    split
    · simp [Node.height]
    next hcond =>
      push_neg at hcond
      obtain ⟨hd, -, -⟩ := hcond
      rw [hm] at hd
      have hdm : d < mD := by exact_mod_cast hd
      split
      · simp [Node.height]
      next bg s heq =>
        split
        · simp [Node.height]
        · simp only [Node.height]
          have h1 := ih (s.leftIndices.map (fun i => X.getD i []))
            (s.leftIndices.map (fun i => g.getD i 0)) (d + 1)
          have h2 := ih (s.rightIndices.map (fun i => X.getD i []))
            (s.rightIndices.map (fun i => g.getD i 0)) (d + 1)
          have h3 := Nat.max_le.mpr ⟨h1, h2⟩
          omega

/-- Claim C8: in every tree produced by a completed `fit` on a constructed
model whose `maxDepth` is the natural number `mD`, no node sits at depth
greater than `mD` (the root being depth 0) — stated via `Node.height`, the
depth of the deepest node of the tree. -/
theorem depth_bound (p : Hyperparams) (X : List (List ℚ)) (y : List ℚ)
    (mD : ℕ) (hm : (XGBoost.new p).maxDepth = (mD : ℚ)) :
    ∀ t ∈ (fit (XGBoost.new p) X y).trees, t.height ≤ mD := by
  intro t ht
  have ht2 : t ∈ ([] : List Node) ++ (fitLoop (XGBoost.new p) X y
      (jsLoopCount (XGBoost.new p).numRounds)
      (List.replicate y.length (1 / 2))).1 := ht
  rw [List.nil_append] at ht2
  obtain ⟨g, hg⟩ := fitLoop_mem (XGBoost.new p) X y _ _ t ht2
  have hb := buildTree_height_le (XGBoost.new p) mD hm (X.length + 1) X g 0
  rw [hg]
  simpa using hb

theorem depth_bound_witness :
    Node.height ((fit (XGBoost.new { maxDepth := some 1, numRounds := some 2 })
        [[0], [1], [2]] [0, 1, 1]).trees.headD (Node.leaf 0)) ≤ 1 :=
  depth_bound { maxDepth := some 1, numRounds := some 2 } [[0], [1], [2]]
    [0, 1, 1] 1 (by decide!) _ (by decide!)

/-! ## Leaf production rule (claim C9) -/

/-- Claim C9: a call to the tree builder returns a Leaf if and only if
`depth ≥ maxDepth`, or `count < minChildWeight`, or `|sumGrad| < 1e-10`, or
the split search records no candidate at all (`bestSplit` stays null, i.e. no
boundary has positive gain), or its best recorded gain — the maximum candidate
gain — stays below the `1e-10` floor; and whenever the call returns a Leaf,
its value is `sumGrad/(count + 1e-10)` over the gradients passed to that
call. -/
theorem leaf_iff_stopping (m : XGBoost) (fuel : ℕ) (X : List (List ℚ))
    (g : List ℚ) (d : ℕ) (_hlen : X.length = g.length) :
    ((_buildTree m (fuel + 1) X g d).isLeafB = true ↔
      ((d : ℚ) ≥ m.maxDepth ∨ ((g.length : ℚ)) < m.minChildWeight ∨
        |gradSum g| < eps ∨ (findBestSplit X g).2 = none ∨
        (findBestSplit X g).1 < eps)) ∧
    (∀ v, _buildTree m (fuel + 1) X g d = Node.leaf v →
      v = gradSum g / ((g.length : ℚ) + eps)) := by
  simp only [_buildTree]
  by_cases hcond : (d : ℚ) ≥ m.maxDepth ∨ ((g.length : ℚ)) < m.minChildWeight ∨
      |gradSum g| < eps
  · rw [if_pos hcond]
    constructor
    · simp only [Node.isLeafB, true_iff]
      tauto
    · intro v hv
      injection hv with h
      exact h.symm
  · rw [if_neg hcond]
    rcases heq : findBestSplit X g with ⟨bg, os⟩
    cases os with
    | none =>
      constructor
      · simp only [Node.isLeafB, true_iff]
        right; right; right; left
        trivial
      · intro v hv
        injection hv with h
        exact h.symm
    | some s =>
      dsimp only
      by_cases hbg : bg < eps
      · rw [if_pos hbg]
        constructor
        · simp only [Node.isLeafB, true_iff]
          right; right; right; right
          exact hbg
        · intro v hv
          injection hv with h
          exact h.symm
      · rw [if_neg hbg]
        constructor
        · simp only [Node.isLeafB, Bool.false_eq_true, false_iff]
          intro hrhs
          rcases hrhs with h | h | h | h | h
          · exact hcond (Or.inl h)
          · exact hcond (Or.inr (Or.inl h))
          · exact hcond (Or.inr (Or.inr h))
          · exact Option.noConfusion h
          · exact hbg h
        · intro v hv
          exact absurd hv (by simp)

theorem leaf_iff_stopping_witness :
    (_buildTree (XGBoost.new {}) 3 [[5], [5]] [1 / 2, 1 / 2] 0).isLeafB = true :=
  ((leaf_iff_stopping (XGBoost.new {}) 2 [[5], [5]] [1 / 2, 1 / 2] 0 rfl).1).mpr
    (by decide!)

theorem split_validity_witness :
    ∃ bg s, findBestSplit [[0], [1], [2]] [-1 / 2, 1 / 2, 1 / 2] = (bg, some s) ∧
      s.featureIndex = 0 ∧ s.leftIndices ≠ [] ∧ s.rightIndices ≠ [] ∧
      (s.leftIndices ++ s.rightIndices).Perm (List.range 3) :=
  split_validity (XGBoost.new { maxDepth := some 1 }) 3 [[0], [1], [2]]
    [-1 / 2, 1 / 2, 1 / 2] 0 0 (1 / 2)
    (Node.leaf (-5000000000 / 10000000001))
    (Node.leaf (10000000000 / 20000000001)) (by decide!)

/-! ## Feature importance (claim C2) -/

/-- Four samples over two features on which the first boosting round splits on
feature 0 and the second on feature 1. -/
def fourX : List (List ℚ) := [[0, 0], [0, 1], [1, 0], [1, 1]]

/-- Labels for `fourX`. -/
def fourY : List ℚ := [0, 1, 1, 1]

/-- Parameters of the two-round counterexample model. -/
def twoRoundParams : Hyperparams :=
  { learningRate := some (1 / 2), maxDepth := some 1, numRounds := some 2 }

/-- The trained ensemble whose first tree splits only on feature 0 while its
second tree splits on feature 1. -/
def twoRoundModel : XGBoost := fit (XGBoost.new twoRoundParams) fourX fourY

/-- Claim C2, counterexample: on this trained ensemble the counter array is
sized from the FIRST tree only (`1 + 0 = 1` slot); when the second tree
increments index 1 the JS array extends and stores `undefined + 1 = NaN`.  The
returned sequence is `[1, NaN]`: its length is still `1 + max featureIndex`,
but the entry at index 1 is `NaN`, not the count `1` of internal nodes
splitting on feature 1, so the claimed equality with the per-feature split
counts fails. -/
theorem featureImportance_entry_not_count :
    getFeatureImportance twoRoundModel = [JVal.num 1, JVal.nan] ∧
    ensembleSplitsOn twoRoundModel 1 = 1 ∧
    getFeatureImportance twoRoundModel
      ≠ (List.range (ensembleNumFeatures twoRoundModel)).map
          (fun f => JVal.num (ensembleSplitsOn twoRoundModel f)) := by decide!

theorem jsIncr_map_range (c : ℕ → ℚ) (n i : ℕ) (hi : i < n) :
    jsIndexIncr ((List.range n).map (fun f => JVal.num (c f))) i
      = (List.range n).map (fun f => JVal.num (if f = i then c f + 1 else c f)) := by
  have hlen : ((List.range n).map (fun f => JVal.num (c f))).length = n := by simp
  rw [jsIndexIncr, if_pos (by rw [hlen]; exact hi)]
  have hget : ((List.range n).map (fun f => JVal.num (c f))).getD i JVal.undef
      = JVal.num (c i) := by
    rw [List.getD_eq_getElem _ _ (by rw [hlen]; exact hi)]
    simp
  rw [hget]
  apply List.ext_getElem
  · simp
  · intro j h1 h2
    simp only [List.getElem_set, List.getElem_map, List.getElem_range]
    by_cases hj : i = j
    · subst hj
      simp [incrVal]
    · simp [hj, Ne.symm hj]

theorem traverse_range (t : Node) :
    ∀ (c : ℕ → ℚ) (n : ℕ), _getNumFeatures t ≤ n →
      _traverseTreeForImportance t ((List.range n).map (fun f => JVal.num (c f)))
        = (List.range n).map
            (fun f => JVal.num (c f + (countSplitsOn f t : ℚ))) := by
  induction t with
  | leaf v =>
    intro c n hb
    simp [_traverseTreeForImportance, countSplitsOn]
  | internal f0 th l r ihl ihr =>
    intro c n hb
    simp only [_getNumFeatures, max_le_iff] at hb
    obtain ⟨hf0, hl, hr⟩ := hb
    rw [show _traverseTreeForImportance (Node.internal f0 th l r)
          ((List.range n).map (fun f => JVal.num (c f)))
        = _traverseTreeForImportance r (_traverseTreeForImportance l
            (jsIndexIncr ((List.range n).map (fun f => JVal.num (c f))) f0))
        from rfl]
    rw [jsIncr_map_range c n f0 (by omega)]
    rw [ihl _ n hl]
    rw [ihr _ n hr]
    refine List.map_congr_left ?_
    intro a ha
    have hc : countSplitsOn a (Node.internal f0 th l r)
        = (if f0 = a then 1 else 0) + countSplitsOn a l + countSplitsOn a r := rfl
    by_cases haf : a = f0
    · subst haf
      simp only [hc, if_pos rfl, if_pos rfl]
      push_cast
      ring_nf
    · simp only [hc, if_neg haf, if_neg (Ne.symm haf)]
      push_cast
      ring_nf

theorem foldl_traverse :
    ∀ (ts : List Node) (c : ℕ → ℚ) (n : ℕ), (∀ t ∈ ts, _getNumFeatures t ≤ n) →
      ts.foldl (fun imp t => _traverseTreeForImportance t imp)
          ((List.range n).map (fun f => JVal.num (c f)))
        = (List.range n).map
            (fun f => JVal.num (c f + ((ts.map (countSplitsOn f)).sum : ℚ))) := by
  intro ts
  induction ts with
  | nil =>
    intro c n hb
    simp
  | cons t ts ih =>
    intro c n hb
    rw [List.foldl_cons]
    rw [traverse_range t c n (hb t (List.mem_cons_self t ts))]
    rw [ih (fun f => c f + (countSplitsOn f t : ℚ)) n
      (fun u hu => hb u (List.mem_cons_of_mem t hu))]
    refine List.map_congr_left ?_
    intro a ha
    have : ((t :: ts).map (countSplitsOn a)).sum
        = countSplitsOn a t + (ts.map (countSplitsOn a)).sum := by simp
    rw [this]
    push_cast
    ring_nf

theorem foldl_max_const :
    ∀ (l : List Node) (acc : ℕ), (∀ t ∈ l, _getNumFeatures t ≤ acc) →
      l.foldl (fun a t => max a (_getNumFeatures t)) acc = acc := by
  intro l
  induction l with
  | nil => intro acc _; rfl
  | cons t ts ih =>
    intro acc hb
    rw [List.foldl_cons,
      Nat.max_eq_left (hb t (List.mem_cons_self t ts))]
    exact ih acc (fun u hu => hb u (List.mem_cons_of_mem t hu))

/-- Claim C2 (amended): `getFeatureImportance` sizes its counter array from
the FIRST tree only, so the claimed description holds under the proviso —
forced by the counterexample — that no tree uses a feature index at or beyond
the bound `1 + max featureIndex` of the first tree.  Under that proviso the result
has length `1 + the maximum featureIndex across every Internal node of every
tree` (empty if there are no trees or no internal nodes) and its entry at each
index `f` is the number of Internal nodes of the whole ensemble splitting on
feature `f`; without the proviso the entries at indices at or beyond the first
bound of the first tree are `NaN` or holes instead of counts. -/
theorem featureImportance_counts (m : XGBoost)
    (hb : ∀ t ∈ m.trees,
      _getNumFeatures t ≤ _getNumFeatures (m.trees.headD (Node.leaf 0))) :
    getFeatureImportance m
      = (List.range (ensembleNumFeatures m)).map
          (fun f => JVal.num (ensembleSplitsOn m f)) := by
  rcases htr : m.trees with _ | ⟨t0, rest⟩
  · simp [getFeatureImportance, ensembleNumFeatures, ensembleSplitsOn, htr]
  · rw [htr] at hb
    simp only [List.headD_cons] at hb
    have hnf : ensembleNumFeatures m = _getNumFeatures t0 := by
      unfold ensembleNumFeatures
      rw [htr, List.foldl_cons, Nat.zero_max]
      exact foldl_max_const rest _
        (fun t ht => hb t (List.mem_cons_of_mem t0 ht))
    have hrepl : List.replicate (_getNumFeatures t0) (JVal.num 0)
        = (List.range (_getNumFeatures t0)).map (fun f => JVal.num ((0 : ℚ))) := by
      have := List.map_const (List.range (_getNumFeatures t0)) (JVal.num (0 : ℚ))
      simp only [List.length_range] at this
      exact this.symm
    have hlhs : getFeatureImportance m
        = (t0 :: rest).foldl (fun imp t => _traverseTreeForImportance t imp)
            (List.replicate (_getNumFeatures t0) (JVal.num 0)) := by
      unfold getFeatureImportance
      rw [htr]
    rw [hlhs, hrepl,
      foldl_traverse (t0 :: rest) (fun _ => (0 : ℚ)) (_getNumFeatures t0) hb,
      hnf]
    refine List.map_congr_left ?_
    intro a ha
    have : ensembleSplitsOn m a = ((t0 :: rest).map (countSplitsOn a)).sum := by
      unfold ensembleSplitsOn
      rw [htr]
    rw [this]
    norm_num

/-- A one-tree model (so the proviso of `featureImportance_counts` holds
trivially) with a single internal node splitting on feature 1. -/
def singleTreeModel : XGBoost :=
  { learningRate := 3 / 10, maxDepth := 4, minChildWeight := 1, numRounds := 100,
    trees := [Node.internal 1 5 (Node.leaf 0) (Node.leaf 1)] }

theorem featureImportance_counts_witness :
    getFeatureImportance singleTreeModel
      = (List.range (ensembleNumFeatures singleTreeModel)).map
          (fun f => JVal.num (ensembleSplitsOn singleTreeModel f)) :=
  featureImportance_counts singleTreeModel (by decide!)
